import Mathlib

/-!
# A verification development for the dreamcpp dependency core

Shallow embedding of the dependency-resolution and project-synchronization
core of `src/dreamcpp/src/main.cpp`.  TOML documents are modelled as an
already-parsed structured-document tree (`TomlValue`); text-level TOML
parsing, the HTTP transport, the external `git` process and the filesystem
are external collaborators and are modelled by an explicit environment
(`Env`) and a path-set world (`World`).  Stateful functions additionally
return a trace of the external actions they attempted (`ExtAction`), so that
"never persisted" / "no filesystem action" style statements are expressible.
-/

/-- Structured-document tree: the get/set-by-key view of a parsed TOML
document (the text grammar itself is an opaque codec). -/
inductive TomlValue where
  | str (s : String)
  | boolV (b : Bool)
  | intV (n : Int)
  | arr (elems : List TomlValue)
  | table (entries : List (String × TomlValue))

/-- A parsed TOML table: keys with values, in iteration order. -/
abbrev TomlDoc := List (String × TomlValue)

/-- `node.value<std::string>()`: a string exactly when the node is a string. -/
def TomlValue.asString? : TomlValue → Option String
  | .str s => some s
  | _ => none

/-- `node.value<bool>()`. -/
def TomlValue.asBool? : TomlValue → Option Bool
  | .boolV b => some b
  | _ => none

/-- `node.as_array()`. -/
def TomlValue.asArray? : TomlValue → Option (List TomlValue)
  | .arr xs => some xs
  | _ => none

/-- `node.as_table()`. -/
def TomlValue.asTable? : TomlValue → Option TomlDoc
  | .table t => some t
  | _ => none

/-- `tbl[key]`: key lookup in a parsed table. -/
def tomlGet (t : TomlDoc) (k : String) : Option TomlValue :=
  t.lookup k

/-- `struct Dependency` (main.cpp:19-23). -/
structure Dependency where
  name : String
  version : String := "latest"
  system : Bool := false
deriving DecidableEq

/-- `struct DepIndex` (main.cpp:25-30). -/
structure DepIndex where
  git : String := ""
  aliases : List String := []
  branch : Option String := none
  header_only : Bool := false
deriving DecidableEq

/-- `struct AppConfig` (main.cpp:32-39), with the source's field defaults. -/
structure AppConfig where
  name : String := "Dream++ Application"
  version : String := "1.0.0"
  includes : List String := []
  standard : String := "c++20"
  preferred_compiler : String := "clang++"
  deps : List Dependency := []
deriving DecidableEq

/-- One iteration of the dependency loop of `parse_config_file`
(main.cpp:143-153): build a `Dependency` from a row of the `dependencies`
array, keeping it only when the row is a table and the extracted name is
non-empty and not the `"unknown"` placeholder. -/
def parse_dep_row (v : TomlValue) : Option Dependency :=
  match v.asTable? with
  | none => none
  | some tbldep =>
    let dep : Dependency :=
      { name := ((tomlGet tbldep "name").bind TomlValue.asString?).getD "unknown"
        version := ((tomlGet tbldep "version").bind TomlValue.asString?).getD "latest"
        system := ((tomlGet tbldep "system").bind TomlValue.asBool?).getD false }
    if dep.name ≠ "" ∧ dep.name ≠ "unknown" then some dep else none

/-- The `dependencies` part of `parse_config_file` (main.cpp:141-154):
absent or non-array key leaves the (empty) default. -/
def parse_deps_field (tbl : TomlDoc) : List Dependency :=
  match (tomlGet tbl "dependencies").bind TomlValue.asArray? with
  | some xs => xs.filterMap parse_dep_row
  | none => []

/-- The `includes` part of `parse_config_file` (main.cpp:133-139). -/
def parse_includes_field (tbl : TomlDoc) : List String :=
  match (tomlGet tbl "includes").bind TomlValue.asArray? with
  | some xs => xs.filterMap TomlValue.asString?
  | none => []

/-- The happy path of `parse_config_file` (main.cpp:122-156) on an already
text-parsed document: every field defaults independently when its key is
absent or has the wrong type; `name` falls back to the project name. -/
def parse_config_table (tbl : TomlDoc) (project_name : String) : AppConfig :=
  { name := ((tomlGet tbl "name").bind TomlValue.asString?).getD project_name
    version := ((tomlGet tbl "version").bind TomlValue.asString?).getD "1.0.0"
    standard := ((tomlGet tbl "standard").bind TomlValue.asString?).getD "c++20"
    preferred_compiler :=
      ((tomlGet tbl "preferred_compiler").bind TomlValue.asString?).getD "clang++"
    includes := parse_includes_field tbl
    deps := parse_deps_field tbl }

/-- `parse_config_file` (main.cpp:122-165): a text-level parse error
(modelled as `none` input) yields no config, never a partial one. -/
def parse_config_file (parsed : Option TomlDoc) (project_name : String) :
    Option AppConfig :=
  parsed.map (fun tbl => parse_config_table tbl project_name)

/-- One dependency row of `serialise_config` (main.cpp:222-228): only
`name` and `version` are written; the resolved git URL is not serialized. -/
def serialise_dep (dep : Dependency) : TomlValue :=
  .table [("name", .str dep.name), ("version", .str dep.version)]

/-- `serialise_config` (main.cpp:209-235). -/
def serialise_config (config : AppConfig) : TomlDoc :=
  [("name", .str config.name),
   ("version", .str config.version),
   ("includes", .arr (config.includes.map TomlValue.str)),
   ("dependencies", .arr (config.deps.map serialise_dep)),
   ("standard", .str config.standard),
   ("preferred_compiler", .str config.preferred_compiler)]

/-- One row of `parse_repository_index` (main.cpp:174-191): build a
`DepIndex` from a table row (`git` defaults to `""`, `header` to `false`,
non-string aliases are skipped, `branch` is optional). -/
def parse_index_row (v : TomlValue) : Option DepIndex :=
  match v.asTable? with
  | none => none
  | some vtbl =>
    some { git := ((tomlGet vtbl "git").bind TomlValue.asString?).getD ""
           header_only := ((tomlGet vtbl "header").bind TomlValue.asBool?).getD false
           aliases := match (tomlGet vtbl "aliases").bind TomlValue.asArray? with
             | some xs => xs.filterMap TomlValue.asString?
             | none => []
           branch := (tomlGet vtbl "branch").bind TomlValue.asString? }

/-- `depmap[k] = dep` on a `std::map<std::string, DepIndex>`: insertion into
a key-sorted association list, replacing an equal key. -/
def mapInsert (m : List (String × DepIndex)) (k : String) (v : DepIndex) :
    List (String × DepIndex) :=
  match m with
  | [] => [(k, v)]
  | (k', v') :: rest =>
    if k < k' then (k, v) :: (k', v') :: rest
    else if k = k' then (k, v) :: rest
    else (k', v') :: mapInsert rest k v

/-- One step of the `parse_repository_index` loop (main.cpp:173-196):
non-table rows are skipped, and a row is inserted only when its git URL is
non-empty. -/
def index_fold_step (depmap : List (String × DepIndex)) (kv : String × TomlValue) :
    List (String × DepIndex) :=
  match parse_index_row kv.2 with
  | none => depmap
  | some dep => if dep.git ≠ "" then mapInsert depmap kv.1 dep else depmap

/-- `parse_repository_index` (main.cpp:167-207) on an already text-parsed
registry document. -/
def parse_repository_index (tbl : TomlDoc) : List (String × DepIndex) :=
  tbl.foldl index_fold_step []

/-- The lookup phase of `search_remote_index` (main.cpp:303-318): direct key
lookup first (`get_or_nullopt`), then a linear scan of the entries' alias
lists in the mapping's iteration order, first match wins (`std::find`). -/
def search_index (index : List (String × DepIndex)) (dep_name : String) :
    Option DepIndex :=
  match index.lookup dep_name with
  | some dep => some dep
  | none => (index.find? (fun kv => kv.2.aliases.contains dep_name)).map Prod.snd

/-- External collaborators of the core: the outcome of fetching and
text-parsing the fixed remote registry document, and oracles for the exit
status of the external clone command, the header-relocation filesystem
calls, and the manifest write. -/
structure Env where
  httpStatus : Int := 200
  fetchedIndex : Option TomlDoc := none
  cloneOk : String → String → Bool := fun _ _ => true
  relocOk : String → Bool := fun _ => true
  storeOk : Bool := true

/-- `search_remote_index` (main.cpp:286-319): non-200 response or a registry
parse failure degrades to no match; otherwise search the parsed mapping. -/
def search_remote_index (env : Env) (dep_name : String) : Option DepIndex :=
  if env.httpStatus ≠ 200 then none
  else match env.fetchedIndex with
    | none => none
    | some doc => search_index (parse_repository_index doc) dep_name

/-- `resolve_dependency_url` (main.cpp:321-333): the local-index search is
commented out in the source, so resolution is remote-only. -/
def resolve_dependency_url (env : Env) (dep_name : String) : Option DepIndex :=
  search_remote_index env dep_name

/-- External actions attempted by the core, recorded as a trace. -/
inductive ExtAction where
  | resolveAct (name : String)
  | cloneAct (url : String) (path : String)
  | mkdirAct (path : String)
  | relocateAct (name : String)
  | storeAct (path : String)
deriving DecidableEq

/-- The filesystem, abstracted to the set of existing paths. -/
structure World where
  paths : List String := []
deriving DecidableEq

/-- `std::filesystem::exists`. -/
def World.pathExists (w : World) (p : String) : Bool :=
  w.paths.contains p

/-- A path coming into existence (directory creation, successful clone). -/
def World.addPath (w : World) (p : String) : World :=
  { paths := p :: w.paths }

/-- The three outcomes of `clone_single_dependency`, distinguished by its
return sites and log messages; the C++ collapses the first two to `true`. -/
inductive MatResult where
  | success
  | skippedExisting
  | failure
deriving DecidableEq

/-- The boolean the C++ function actually returns. -/
def MatResult.toBool : MatResult → Bool
  | .failure => false
  | _ => true

/-- `std::format("build/deps/{}", dep_name)` (main.cpp:392). -/
def dep_path (dep_name : String) : String := "build/deps/" ++ dep_name

/-- `std::format("build/includes/{}", dep_name)` (main.cpp:420). -/
def include_path (dep_name : String) : String := "build/includes/" ++ dep_name

/-- `clone_single_dependency` (main.cpp:391-432).  The header-only
relocation try-block (create_directory + rename, main.cpp:418-428) is
modelled as one best-effort `relocateAct` whose success is decided by the
environment; its failure is only a warning, so the result stays `success`.
A successful clone brings the target directory into existence. -/
def clone_single_dependency (env : Env) (w : World) (dep_name : String) :
    MatResult × World × List ExtAction :=
  if w.pathExists (dep_path dep_name) then (.skippedExisting, w, [])
  else match resolve_dependency_url env dep_name with
    | none => (.failure, w, [.resolveAct dep_name])
    | some repo_index =>
      if env.cloneOk repo_index.git (dep_path dep_name) then
        let w1 := w.addPath (dep_path dep_name)
        if repo_index.header_only then
          let w2 := if env.relocOk dep_name then w1.addPath (include_path dep_name) else w1
          (.success, w2,
            [.resolveAct dep_name, .cloneAct repo_index.git (dep_path dep_name),
             .relocateAct dep_name])
        else
          (.success, w1,
            [.resolveAct dep_name, .cloneAct repo_index.git (dep_path dep_name)])
      else
        (.failure, w,
          [.resolveAct dep_name, .cloneAct repo_index.git (dep_path dep_name)])

/-- The observable outcome of the sync loop: the aggregated boolean the C++
returns, the final world, the attempted external actions, and (as ghost
observers) the per-dependency materialization outcomes in attempt order. -/
structure SyncResult where
  all_success : Bool
  world : World
  trace : List ExtAction
  outcomes : List (String × MatResult)
deriving DecidableEq

/-- The dependency loop of `dependency::sync` (main.cpp:460-469): system
dependencies are skipped outright; every other dependency is attempted in
list order and a failure only clears the aggregate flag. -/
def sync_loop (env : Env) (w : World) : List Dependency → SyncResult
  | [] => ⟨true, w, [], []⟩
  | dep :: rest =>
    if dep.system then sync_loop env w rest
    else
      let c := clone_single_dependency env w dep.name
      let s := sync_loop env c.2.1 rest
      ⟨c.1.toBool && s.all_success, s.world, c.2.2 ++ s.trace,
       (dep.name, c.1) :: s.outcomes⟩

/-- The dependencies root created by `sync` (main.cpp:454). -/
def deps_root : String := "build/deps"

/-- The includes root created by `sync` (main.cpp:457). -/
def includes_root : String := "build/includes"

/-- `dependency::sync` after environment validation and config parsing
(main.cpp:448-478): an empty list returns success before any directory is
created; otherwise the two roots are ensured and the loop runs. -/
def sync_deps (env : Env) (w : World) (deps : List Dependency) : SyncResult :=
  if deps.isEmpty then ⟨true, w, [], []⟩
  else
    let w1 := (w.addPath deps_root).addPath includes_root
    let s := sync_loop env w1 deps
    ⟨s.all_success, s.world,
     [.mkdirAct deps_root, .mkdirAct includes_root] ++ s.trace, s.outcomes⟩

/-- The distinct return sites of `dependency::add` (main.cpp:342-389),
after environment validation and config parsing; the C++ collapses them to
a boolean. -/
inductive AddOutcome where
  | alreadyExists
  | added
  | notFound
  | saveFailed
deriving DecidableEq

/-- The boolean the C++ `add` actually returns at each site. -/
def AddOutcome.toBool : AddOutcome → Bool
  | .notFound => false
  | .saveFailed => false
  | _ => true

/-- `dependency::add` (main.cpp:342-389) on the parsed config: an existing
name is a no-op success before resolution is even attempted; an
unresolvable name fails without touching the config or the manifest;
otherwise the new dependency (version `"latest"`, no git URL stored) is
appended and the whole config is re-serialized to disk. -/
def dependency_add (env : Env) (app : AppConfig) (dep_name : String) :
    AddOutcome × AppConfig × List ExtAction :=
  if app.deps.any (fun dep => dep.name == dep_name) then
    (.alreadyExists, app, [])
  else match resolve_dependency_url env dep_name with
    | none => (.notFound, app, [.resolveAct dep_name])
    | some _ =>
      let app2 : AppConfig :=
        { app with deps := app.deps ++ [{ name := dep_name, version := "latest", system := false }] }
      if env.storeOk then
        (.added, app2, [.resolveAct dep_name, .storeAct "dreamcpp.toml"])
      else
        (.saveFailed, app2, [.resolveAct dep_name, .storeAct "dreamcpp.toml"])

/-! ## Helper lemmas -/

/-- A dependency row that survives parsing has a non-empty, non-placeholder
name. -/
theorem parse_dep_row_some {v : TomlValue} {d : Dependency}
    (h : parse_dep_row v = some d) : d.name ≠ "" ∧ d.name ≠ "unknown" := by
  unfold parse_dep_row at h
  cases hv : v.asTable? with
  | none => rw [hv] at h; exact Option.noConfusion h
  | some t =>
    rw [hv] at h
    simp only at h
    split at h
    · rename_i hc
      cases h
      exact hc
    · exact Option.noConfusion h

/-- Parsing a serialized dependency row: the name/version survive when the
name is valid, and the `system` flag resets to its default. -/
theorem parse_dep_row_serialise (d : Dependency) :
    parse_dep_row (serialise_dep d) =
      if d.name ≠ "" ∧ d.name ≠ "unknown" then
        some { name := d.name, version := d.version, system := false }
      else none := rfl

/-- A `filterMap` by a guarded `some` is a `filter` followed by a `map`. -/
theorem filterMap_guard {α β : Type} (p : α → Prop) [DecidablePred p]
    (f : α → β) (l : List α) :
    l.filterMap (fun a => if p a then some (f a) else none)
      = (l.filter (fun a => decide (p a))).map f := by
  induction l with
  | nil => rfl
  | cons a t ih =>
    by_cases h : p a <;>
      simp [List.filterMap_cons, List.filter_cons, h, ih]

/-- Re-reading serialized include paths gives them back. -/
theorem filterMap_asString_map_str (xs : List String) :
    (xs.map TomlValue.str).filterMap TomlValue.asString? = xs := by
  induction xs with
  | nil => rfl
  | cons a t ih => simp [List.filterMap_cons, TomlValue.asString?, ih]

/-- The name filter `parse_config_file` applies to a dependency row
(main.cpp:149), as a boolean predicate. -/
def dep_name_kept (d : Dependency) : Bool :=
  decide (d.name ≠ "" ∧ d.name ≠ "unknown")

/-- What survives of a dependency after a serialize/load cycle: the
`system` flag is not among the serialized keys, so it resets to `false`. -/
def clear_system (d : Dependency) : Dependency :=
  { d with system := false }

/-- Loading a serialized config: every scalar field and the include list
come back verbatim; the dependency list keeps exactly the rows with valid
names, with each survivor's `system` flag reset to `false` (the only
dependency keys ever serialized are `name` and `version`). -/
theorem parse_config_table_serialise (c : AppConfig) (fb : String) :
    parse_config_table (serialise_config c) fb =
      { c with deps := (c.deps.filter dep_name_kept).map clear_system } := by
  have hdeps : parse_deps_field (serialise_config c)
      = (c.deps.filter dep_name_kept).map clear_system := by
    show (c.deps.map serialise_dep).filterMap parse_dep_row = _
    rw [List.filterMap_map]
    have : (parse_dep_row ∘ serialise_dep)
        = fun d : Dependency =>
            if d.name ≠ "" ∧ d.name ≠ "unknown" then
              some (clear_system d)
            else none := by
      funext d; exact parse_dep_row_serialise d
    rw [this, filterMap_guard]
    rfl
  have hinc : parse_includes_field (serialise_config c) = c.includes := by
    show (c.includes.map TomlValue.str).filterMap TomlValue.asString? = _
    exact filterMap_asString_map_str c.includes
  simp only [parse_config_table]
  rw [hdeps, hinc]
  rfl

/-! ## Claim C1 -/

/-- C1 (counterexample): the serialize/load round-trip does **not**
reproduce a dependency's `system` flag — `serialise_config` writes only
`name` and `version` for each dependency, so a `system = true` flag loads
back as `false`. -/
theorem serialise_load_drops_system_flag :
    (parse_config_table (serialise_config
        { deps := [{ name := "zlib", version := "latest", system := true }] })
        "p").deps.map Dependency.system
      ≠ ({ deps := [{ name := "zlib", version := "latest", system := true }] } :
          AppConfig).deps.map Dependency.system := by
  decide

/-- C1 (amended): for every `AppConfig` whose dependency names are
non-empty and distinct from the `"unknown"` placeholder, serializing,
loading, and serializing again reproduces `name`, `version`, `standard`,
`preferredCompiler`, `includes`, and each dependency's `name` and
`version`; each loaded dependency's `system` flag is reset to `false`
(it is not serialized), and the serialized form of a dependency holds
exactly the keys `name` and `version` — in particular the resolved source
URL never appears in the serialized document. -/
theorem serialise_load_roundtrip (c : AppConfig) (fb : String)
    (h : ∀ d ∈ c.deps, d.name ≠ "" ∧ d.name ≠ "unknown") :
    parse_config_table (serialise_config c) fb
        = { c with deps := c.deps.map clear_system }
    ∧ serialise_config (parse_config_table (serialise_config c) fb)
        = serialise_config c
    ∧ ∀ d ∈ c.deps, serialise_dep d
        = TomlValue.table [("name", TomlValue.str d.name),
                           ("version", TomlValue.str d.version)] := by
  have hf : c.deps.filter dep_name_kept = c.deps :=
    List.filter_eq_self.mpr fun d hd => by
      simpa [dep_name_kept] using h d hd
  have h1 : parse_config_table (serialise_config c) fb
      = { c with deps := c.deps.map clear_system } := by
    rw [parse_config_table_serialise, hf]
  refine ⟨h1, ?_, fun d _ => rfl⟩
  rw [h1]
  have hcomp : serialise_dep ∘ clear_system = serialise_dep :=
    funext fun d => rfl
  simp [serialise_config, List.map_map, hcomp]

/-- C1 (witness): the amended round-trip law at a concrete config. -/
theorem serialise_load_roundtrip_witness :
    parse_config_table (serialise_config
        { name := "p", deps := [{ name := "fmt" }] }) "fb"
      = { name := "p", deps := [{ name := "fmt" }] } :=
  ((serialise_load_roundtrip { name := "p", deps := [{ name := "fmt" }] } "fb"
      (by decide)).1).trans (by decide)

/-! ## Claim C2 -/

/-- The sync loop attempts exactly the non-system dependencies in list
order whatever their outcomes, aggregates by AND, and is unaffected by
dropping the system dependencies from the list. -/
theorem sync_loop_spec (env : Env) (w : World) (deps : List Dependency) :
    (sync_loop env w deps).outcomes.map Prod.fst
        = (deps.filter (fun d => !d.system)).map Dependency.name
    ∧ (sync_loop env w deps).all_success
        = (sync_loop env w deps).outcomes.all (fun o => o.2.toBool)
    ∧ sync_loop env w (deps.filter (fun d => !d.system)) = sync_loop env w deps := by
  induction deps generalizing w with
  | nil => exact ⟨rfl, rfl, rfl⟩
  | cons dep rest ih =>
    cases hs : dep.system with
    | true =>
      obtain ⟨ih1, ih2, ih3⟩ := ih w
      refine ⟨?_, ?_, ?_⟩ <;>
        simp [sync_loop, hs, List.filter_cons, ih1, ih2, ih3]
    | false =>
      obtain ⟨ih1, ih2, ih3⟩ := ih (clone_single_dependency env w dep.name).2.1
      refine ⟨?_, ?_, ?_⟩ <;>
        simp [sync_loop, hs, List.filter_cons, ih1, ih2, ih3]

/-- C2: `sync` attempts every declared non-system dependency in list
order even when an earlier materialization fails (the attempted names are
exactly the non-system names, independently of any outcome); system
dependencies are skipped with no network or filesystem action — dropping
them from the list leaves the loop's result, world, trace, and outcomes
unchanged; and the returned boolean is the logical AND of every attempted
dependency's success, with `skippedExisting` counting as success via
`MatResult.toBool`. -/
theorem sync_attempts_and_aggregates (env : Env) (w : World)
    (deps : List Dependency) :
    (sync_deps env w deps).outcomes.map Prod.fst
        = (deps.filter (fun d => !d.system)).map Dependency.name
    ∧ (sync_deps env w deps).all_success
        = (sync_deps env w deps).outcomes.all (fun o => o.2.toBool)
    ∧ sync_loop env w (deps.filter (fun d => !d.system)) = sync_loop env w deps := by
  refine ⟨?_, ?_, (sync_loop_spec env w deps).2.2⟩
  · cases deps with
    | nil => rfl
    | cons d t =>
      show (sync_loop env ((w.addPath deps_root).addPath includes_root)
        (d :: t)).outcomes.map Prod.fst = _
      exact (sync_loop_spec env _ (d :: t)).1
  · cases deps with
    | nil => rfl
    | cons d t =>
      show (sync_loop env ((w.addPath deps_root).addPath includes_root)
          (d :: t)).all_success
        = (sync_loop env ((w.addPath deps_root).addPath includes_root)
          (d :: t)).outcomes.all (fun o => o.2.toBool)
      exact (sync_loop_spec env _ (d :: t)).2.1

/-! ## Claim C3 -/

/-- C3 (counterexample): when the name is already present in `deps`, `add`
returns at the already-exists site — a success — *before* resolution is
even consulted, so an unresolvable-but-already-declared name does not
produce the dependency-not-found failure the claim asserts (the default
`Env` has no fetched index, so resolution finds nothing). -/
theorem add_unresolvable_existing_counterexample :
    resolve_dependency_url ({} : Env) "x" = none
    ∧ (dependency_add ({} : Env)
        { deps := [{ name := "x", version := "latest", system := false }] }
        "x").1 = AddOutcome.alreadyExists
    ∧ AddOutcome.toBool AddOutcome.alreadyExists = true
    ∧ AddOutcome.alreadyExists ≠ AddOutcome.notFound := by
  refine ⟨rfl, by decide, rfl, by decide⟩

/-- C3 (amended): for every name **not already among the declared
dependencies** for which resolution returns no match, `add` returns the
dependency-not-found failure, leaves the config (hence its `deps`)
unchanged, and its only attempted external action is the resolution
itself — in particular no store action occurs, so the on-disk manifest
is never written; an already-present name instead returns success,
also without mutating or persisting anything. -/
theorem add_unresolvable_leaves_config_unchanged (env : Env) (app : AppConfig)
    (dep_name : String)
    (hres : resolve_dependency_url env dep_name = none)
    (hmem : app.deps.any (fun dep => dep.name == dep_name) = false) :
    dependency_add env app dep_name
      = (AddOutcome.notFound, app, [ExtAction.resolveAct dep_name]) := by
  simp [dependency_add, hmem, hres]

/-- C3 (witness): the amended statement at a concrete unresolvable name. -/
theorem add_unresolvable_leaves_config_unchanged_witness :
    dependency_add ({} : Env) ({} : AppConfig) "x"
      = (AddOutcome.notFound, ({} : AppConfig), [ExtAction.resolveAct "x"]) :=
  add_unresolvable_leaves_config_unchanged ({} : Env) ({} : AppConfig) "x"
    (by decide) (by decide)

/-! ## Claim C4 -/

/-- A freshly created path exists. -/
theorem pathExists_addPath_self (w : World) (p : String) :
    (w.addPath p).pathExists p = true := by
  simp [World.pathExists, World.addPath]

/-- Creating another path keeps an existing one. -/
theorem pathExists_addPath_mono (w : World) (p q : String)
    (h : w.pathExists q = true) : (w.addPath p).pathExists q = true := by
  simp [World.pathExists, World.addPath] at *
  exact Or.inr h

/-- After any non-failing materialization the deterministic target
directory exists on disk (it either pre-existed or was just cloned). -/
theorem clone_world_has_path (env : Env) (w : World) (dep_name : String)
    (hne : (clone_single_dependency env w dep_name).1 ≠ MatResult.failure) :
    ((clone_single_dependency env w dep_name).2.1).pathExists
      (dep_path dep_name) = true := by
  by_cases hp : w.pathExists (dep_path dep_name) = true
  · simp [clone_single_dependency, hp]
  · rw [Bool.not_eq_true] at hp
    cases hr : resolve_dependency_url env dep_name with
    | none => exact absurd (by simp [clone_single_dependency, hp, hr]) hne
    | some ri =>
      cases hc : env.cloneOk ri.git (dep_path dep_name) with
      | false => exact absurd (by simp [clone_single_dependency, hp, hr, hc]) hne
      | true =>
        cases hh : ri.header_only with
        | false =>
          simp [clone_single_dependency, hp, hr, hc, hh, pathExists_addPath_self]
        | true =>
          cases hrel : env.relocOk dep_name with
          | false =>
            simp [clone_single_dependency, hp, hr, hc, hh, hrel,
                  pathExists_addPath_self]
          | true =>
            simp [clone_single_dependency, hp, hr, hc, hh, hrel,
                  pathExists_addPath_mono, pathExists_addPath_self]

/-- C4: if the deterministic target directory beneath the dependencies
root already exists, `clone_single_dependency` returns `skippedExisting`
with the world untouched and an empty action trace — so neither
resolution nor the clone command is invoked; consequently a second call
after any successful (non-failure) first call returns `skippedExisting`
without cloning again; and `skippedExisting` counts as success. -/
theorem materialize_skips_existing (env : Env) (w : World) (dep_name : String) :
    (w.pathExists (dep_path dep_name) = true →
        clone_single_dependency env w dep_name
          = (MatResult.skippedExisting, w, []))
    ∧ ((clone_single_dependency env w dep_name).1 ≠ MatResult.failure →
        clone_single_dependency env
            (clone_single_dependency env w dep_name).2.1 dep_name
          = (MatResult.skippedExisting,
             (clone_single_dependency env w dep_name).2.1, []))
    ∧ MatResult.toBool MatResult.skippedExisting = true := by
  refine ⟨fun hp => by simp [clone_single_dependency, hp], fun hne => ?_, rfl⟩
  have hp := clone_world_has_path env w dep_name hne
  generalize hgen : (clone_single_dependency env w dep_name).2.1 = w2 at hp ⊢
  simp [clone_single_dependency, hp]

/-- C4 (witness): materializing twice from an empty world against a
registry that resolves the name; the second call is a skip. -/
theorem materialize_skips_existing_witness :
    clone_single_dependency { fetchedIndex := some [("a", .table [("git", .str "u")])] }
        (clone_single_dependency
          { fetchedIndex := some [("a", .table [("git", .str "u")])] } ⟨[]⟩ "a").2.1 "a"
      = (MatResult.skippedExisting,
         (clone_single_dependency
           { fetchedIndex := some [("a", .table [("git", .str "u")])] } ⟨[]⟩ "a").2.1,
         []) :=
  (materialize_skips_existing
      { fetchedIndex := some [("a", .table [("git", .str "u")])] } ⟨[]⟩ "a").2.1
    (by decide)

/-! ## Claim C5 -/

/-- C5: searching the parsed registry tries direct key lookup first — a
direct hit is returned even if other entries alias the same name — and
only on a missing key falls back to a linear scan of the entries' alias
lists in the mapping's iteration order, returning the first entry whose
alias list contains the name; and for the registry
`{"libx": {git: "u", aliases: ["x", "libx-old"]}}` resolution of `"x"`,
`"libx-old"` and `"libx"` all return the descriptor with source URL
`"u"`. -/
theorem resolve_direct_before_alias (m : List (String × DepIndex))
    (dep_name : String) (d : DepIndex) :
    (m.lookup dep_name = some d → search_index m dep_name = some d)
    ∧ (m.lookup dep_name = none →
        search_index m dep_name
          = (m.find? (fun kv => kv.2.aliases.contains dep_name)).map Prod.snd)
    ∧ ((resolve_dependency_url
          { fetchedIndex := some [("libx",
              .table [("git", .str "u"),
                      ("aliases", .arr [.str "x", .str "libx-old"])])] }
          "x").map DepIndex.git = some "u"
       ∧ (resolve_dependency_url
          { fetchedIndex := some [("libx",
              .table [("git", .str "u"),
                      ("aliases", .arr [.str "x", .str "libx-old"])])] }
          "libx-old").map DepIndex.git = some "u"
       ∧ (resolve_dependency_url
          { fetchedIndex := some [("libx",
              .table [("git", .str "u"),
                      ("aliases", .arr [.str "x", .str "libx-old"])])] }
          "libx").map DepIndex.git = some "u") := by
  refine ⟨fun h => by simp [search_index, h],
          fun h => by simp [search_index, h],
          by decide, by decide, by decide⟩

/-- C5 (witness): a direct hit at a concrete one-entry mapping. -/
theorem resolve_direct_before_alias_witness :
    search_index [("libx", ⟨"u", ["x", "libx-old"], none, false⟩)] "libx"
      = some ⟨"u", ["x", "libx-old"], none, false⟩ :=
  (resolve_direct_before_alias [("libx", ⟨"u", ["x", "libx-old"], none, false⟩)]
      "libx" ⟨"u", ["x", "libx-old"], none, false⟩).1 (by decide)

/-! ## Claim C6 -/

/-- Membership after a sorted-map insertion comes from the old map or is
the inserted pair. -/
theorem mem_mapInsert {m : List (String × DepIndex)} {k : String}
    {v : DepIndex} {p : String × DepIndex} (h : p ∈ mapInsert m k v) :
    p ∈ m ∨ p = (k, v) := by
  induction m with
  | nil => simpa [mapInsert] using h
  | cons a t ih =>
    simp only [mapInsert] at h
    split at h
    · rcases List.mem_cons.mp h with h1 | h1
      · exact Or.inr h1
      · exact Or.inl h1
    · split at h
      · rcases List.mem_cons.mp h with h1 | h1
        · exact Or.inr h1
        · exact Or.inl (List.mem_cons_of_mem a h1)
      · rcases List.mem_cons.mp h with h1 | h1
        · exact Or.inl (h1 ▸ List.mem_cons_self a t)
        · rcases ih h1 with h2 | h2
          · exact Or.inl (List.mem_cons_of_mem a h2)
          · exact Or.inr h2

/-- One fold step either keeps a pair of the accumulator or inserts a row
whose git URL passed the non-emptiness filter. -/
theorem mem_index_fold_step {acc : List (String × DepIndex)}
    {kv : String × TomlValue} {r : String × DepIndex}
    (hr : r ∈ index_fold_step acc kv) : r ∈ acc ∨ r.2.git ≠ "" := by
  cases hrow : parse_index_row kv.2 with
  | none =>
    simp only [index_fold_step, hrow] at hr
    exact Or.inl hr
  | some dep =>
    simp only [index_fold_step, hrow] at hr
    split at hr
    · rcases mem_mapInsert hr with h1 | h1
      · exact Or.inl h1
      · rename_i hgit
        right
        rw [h1]
        exact hgit
    · exact Or.inl hr

/-- Folding registry rows over an accumulator whose values all have a
non-empty git URL preserves that property. -/
theorem foldl_index_step_git (tbl : TomlDoc) :
    ∀ (acc : List (String × DepIndex)),
      (∀ q ∈ acc, q.2.git ≠ "") →
      ∀ q ∈ tbl.foldl index_fold_step acc, q.2.git ≠ "" := by
  induction tbl with
  | nil => intro acc hacc q hq; exact hacc q hq
  | cons kv rest ih =>
    intro acc hacc q hq
    refine ih (index_fold_step acc kv) ?_ q hq
    intro r hr
    rcases mem_index_fold_step hr with h1 | h1
    · exact hacc r h1
    · exact h1

/-- Every pair in the parsed registry mapping has a non-empty git URL:
the fold step only ever inserts rows that passed the git filter. -/
theorem mem_parse_repository_index {tbl : TomlDoc}
    {p : String × DepIndex} (h : p ∈ parse_repository_index tbl) :
    p.2.git ≠ "" :=
  foldl_index_step_git tbl [] (by simp) p h

/-- A successful direct lookup finds a pair of the mapping. -/
theorem lookup_mem {m : List (String × DepIndex)} {k : String} {d : DepIndex}
    (h : m.lookup k = some d) : (k, d) ∈ m := by
  induction m with
  | nil => exact Option.noConfusion h
  | cons a t ih =>
    simp only [List.lookup] at h
    split at h
    · rename_i hk
      cases h
      have : k = a.1 := by simpa using hk
      rw [this]
      exact List.mem_cons_self a t
    · exact List.mem_cons_of_mem a (ih h)

/-- A successful search (direct or alias) returns a value of the mapping. -/
theorem search_index_mem {m : List (String × DepIndex)} {dep_name : String}
    {d : DepIndex} (h : search_index m dep_name = some d) :
    ∃ k, (k, d) ∈ m := by
  unfold search_index at h
  cases hl : m.lookup dep_name with
  | some d0 =>
    rw [hl] at h
    cases h
    exact ⟨dep_name, lookup_mem hl⟩
  | none =>
    rw [hl] at h
    cases hf : m.find? (fun kv => kv.2.aliases.contains dep_name) with
    | none => rw [hf] at h; exact Option.noConfusion h
    | some kv =>
      rw [hf] at h
      cases h
      exact ⟨kv.1, by simpa using List.mem_of_find?_eq_some hf⟩

/-- C6: a registry row lacking a source URL (no `git` key, or an empty
one) is absent from the parsed mapping entirely — every enumerated pair
of `parse_repository_index` has a non-empty git URL, and any descriptor
returned by the search, whether by direct lookup or by alias scan, has a
non-empty git URL. -/
theorem gitless_rows_never_resolved (tbl : TomlDoc) (dep_name : String)
    (d : DepIndex) :
    (∀ p ∈ parse_repository_index tbl, p.2.git ≠ "")
    ∧ (search_index (parse_repository_index tbl) dep_name = some d →
        d.git ≠ "") := by
  refine ⟨fun p hp => mem_parse_repository_index hp, fun h => ?_⟩
  obtain ⟨k, hk⟩ := search_index_mem h
  exact mem_parse_repository_index (p := (k, d)) hk

/-- C6 (witness): a registry with one git-less row and one git-ful row;
the search hypothesis is discharged on the surviving row. -/
theorem gitless_rows_never_resolved_witness :
    (⟨"u", [], none, false⟩ : DepIndex).git ≠ "" :=
  (gitless_rows_never_resolved
      [("bad", .table [("aliases", .arr [.str "b"])]),
       ("good", .table [("git", .str "u")])]
      "good" ⟨"u", [], none, false⟩).2 (by decide)

/-! ## Claim C7 -/

/-- C7: `add` is idempotent — a name already among the declared
dependencies returns success with the config untouched (and no external
action), and for any config satisfying the uniqueness invariant whose
name resolves, two successive `add` calls yield a config with exactly one
dependency of that name. -/
theorem add_idempotent (env : Env) (app : AppConfig) (dep_name : String) :
    (app.deps.any (fun dep => dep.name == dep_name) = true →
        dependency_add env app dep_name = (AddOutcome.alreadyExists, app, []))
    ∧ (app.deps.countP (fun dep => dep.name == dep_name) ≤ 1 →
        resolve_dependency_url env dep_name ≠ none →
        ((dependency_add env (dependency_add env app dep_name).2.1
            dep_name).2.1.deps.countP (fun dep => dep.name == dep_name)) = 1) := by
  have hA : ∀ (cfg : AppConfig),
      cfg.deps.any (fun dep => dep.name == dep_name) = true →
      dependency_add env cfg dep_name = (AddOutcome.alreadyExists, cfg, []) :=
    fun cfg h => by simp [dependency_add, h]
  refine ⟨hA app, fun hcount hres => ?_⟩
  cases hmem : app.deps.any (fun dep => dep.name == dep_name) with
  | true =>
    have h1 : (dependency_add env app dep_name).2.1 = app := by
      rw [hA app hmem]
    rw [h1, hA app hmem]
    have hpos : 0 < app.deps.countP (fun dep => dep.name == dep_name) := by
      rw [List.countP_pos_iff]
      obtain ⟨d, hd, hpd⟩ := List.any_eq_true.mp hmem
      exact ⟨d, hd, hpd⟩
    show app.deps.countP (fun dep => dep.name == dep_name) = 1
    omega
  | false =>
    obtain ⟨ri, hri⟩ := Option.ne_none_iff_exists'.mp hres
    have hzero : app.deps.countP (fun dep => dep.name == dep_name) = 0 := by
      rw [List.countP_eq_zero]
      intro d hd hpd
      have : app.deps.any (fun dep => dep.name == dep_name) = true :=
        List.any_eq_true.mpr ⟨d, hd, hpd⟩
      rw [hmem] at this
      exact Bool.false_ne_true this
    have h1 : (dependency_add env app dep_name).2.1
        = { app with deps := app.deps
            ++ [{ name := dep_name, version := "latest", system := false }] } := by
      cases hstore : env.storeOk <;> simp [dependency_add, hmem, hri, hstore]
    rw [h1]
    have hany2 : ({ app with deps := app.deps
        ++ [{ name := dep_name, version := "latest", system := false }] } :
          AppConfig).deps.any (fun dep => dep.name == dep_name) = true := by
      simp [List.any_append]
    rw [hA _ hany2]
    show (app.deps
        ++ [({ name := dep_name, version := "latest", system := false } :
              Dependency)]).countP
          (fun dep => dep.name == dep_name) = 1
    rw [List.countP_append, hzero]
    simp [List.countP_cons]

/-- C7 (witness): adding `"foo"` twice to an empty config against a
registry that resolves it leaves exactly one `"foo"` dependency. -/
theorem add_idempotent_witness :
    ((dependency_add { fetchedIndex := some [("foo", .table [("git", .str "u")])] }
        (dependency_add { fetchedIndex := some [("foo", .table [("git", .str "u")])] }
          ({} : AppConfig) "foo").2.1
        "foo").2.1.deps.countP (fun dep => dep.name == "foo")) = 1 :=
  (add_idempotent { fetchedIndex := some [("foo", .table [("git", .str "u")])] }
      ({} : AppConfig) "foo").2 (by decide) (by decide)

/-! ## Claim C8 -/

/-- C8: syncing an empty dependency list returns success having changed
nothing: the world is untouched, the action trace is empty (the source
returns before the deps/includes root directories are even ensured, so in
particular no filesystem action beyond those roots — here none at all —
occurs), and no dependency is attempted. -/
theorem sync_empty_deps_noop (env : Env) (w : World) :
    sync_deps env w [] = ⟨true, w, [], []⟩ := rfl

/-! ## Claim C9 -/

/-- Every loaded dependency comes from some row that survived
`parse_dep_row`. -/
theorem mem_parse_deps_field {tbl : TomlDoc} {d : Dependency}
    (h : d ∈ parse_deps_field tbl) : ∃ v, parse_dep_row v = some d := by
  cases harr : (tomlGet tbl "dependencies").bind TomlValue.asArray? with
  | none =>
    simp only [parse_deps_field, harr] at h
    exact absurd h (List.not_mem_nil d)
  | some xs =>
    simp only [parse_deps_field, harr] at h
    obtain ⟨v, _, hsome⟩ := List.mem_filterMap.mp h
    exact ⟨v, hsome⟩

/-- C9 (counterexample): loading a manifest whose `dependencies` array
declares the name `"a"` twice yields a config with two entries named
`"a"` — the loader performs no deduplication, so loading does **not**
preserve the name-uniqueness invariant. -/
theorem load_duplicate_names_counterexample :
    ¬ (((parse_config_table
        [("dependencies", TomlValue.arr
          [.table [("name", .str "a")], .table [("name", .str "a")]])]
        "p").deps.map Dependency.name).Nodup) := by
  decide

/-- C9 (amended): loading always yields non-empty dependency names, but
preserves name-uniqueness only when the incoming rows do not repeat a
name — in particular loading a document serialized from a config with
unique names yields unique names; and `add` preserves the full invariant
(unique, non-empty names) whenever the added name is non-empty. -/
theorem config_operations_preserve_invariant :
    (∀ (tbl : TomlDoc) (fb : String) (d : Dependency),
        d ∈ (parse_config_table tbl fb).deps → d.name ≠ "")
    ∧ (∀ (c : AppConfig) (fb : String),
        (c.deps.map Dependency.name).Nodup →
        ((parse_config_table (serialise_config c) fb).deps.map
          Dependency.name).Nodup)
    ∧ (∀ (env : Env) (app : AppConfig) (dep_name : String),
        (app.deps.map Dependency.name).Nodup →
        (∀ d ∈ app.deps, d.name ≠ "") →
        dep_name ≠ "" →
        ((dependency_add env app dep_name).2.1.deps.map Dependency.name).Nodup
        ∧ ∀ d ∈ (dependency_add env app dep_name).2.1.deps, d.name ≠ "") := by
  refine ⟨?_, ?_, ?_⟩
  · intro tbl fb d hd
    obtain ⟨v, hv⟩ := mem_parse_deps_field hd
    exact (parse_dep_row_some hv).1
  · intro c fb hnd
    rw [parse_config_table_serialise]
    show (((c.deps.filter dep_name_kept).map clear_system).map
      Dependency.name).Nodup
    rw [List.map_map]
    have hcomp : (Dependency.name ∘ clear_system) = Dependency.name :=
      funext fun d => rfl
    rw [hcomp]
    exact List.Nodup.sublist ((c.deps.filter_sublist).map Dependency.name) hnd
  · intro env app dep_name hnd hne hname
    cases hmem : app.deps.any (fun dep => dep.name == dep_name) with
    | true =>
      have h1 : dependency_add env app dep_name
          = (AddOutcome.alreadyExists, app, []) := by
        simp [dependency_add, hmem]
      rw [h1]
      exact ⟨hnd, hne⟩
    | false =>
      cases hres : resolve_dependency_url env dep_name with
      | none =>
        have h1 : dependency_add env app dep_name
            = (AddOutcome.notFound, app, [ExtAction.resolveAct dep_name]) := by
          simp [dependency_add, hmem, hres]
        rw [h1]
        exact ⟨hnd, hne⟩
      | some ri =>
        have h1 : (dependency_add env app dep_name).2.1
            = { app with deps := app.deps
                ++ [{ name := dep_name, version := "latest", system := false }] } := by
          cases hstore : env.storeOk <;> simp [dependency_add, hmem, hres, hstore]
        rw [h1]
        constructor
        · show ((app.deps
            ++ [({ name := dep_name, version := "latest", system := false } :
                  Dependency)]).map Dependency.name).Nodup
          rw [List.map_append]
          refine List.Nodup.append hnd (by simp) ?_
          intro a ha hb
          have hab : a = dep_name := by simpa using hb
          obtain ⟨d, hd, hdn⟩ := List.mem_map.mp ha
          have : app.deps.any (fun dep => dep.name == dep_name) = true :=
            List.any_eq_true.mpr ⟨d, hd, by simp [hdn, hab]⟩
          rw [hmem] at this
          exact Bool.false_ne_true this
        · intro d hd
          rcases List.mem_append.mp hd with h2 | h2
          · exact hne d h2
          · have hd2 : d = { name := dep_name, version := "latest", system := false } := by
              simpa using h2
            rw [hd2]
            exact hname

/-- C9 (witness): the amended invariant-preservation at concrete inputs:
a serialized one-dependency config loads back with unique names, and an
`add` of `"bar"` to an empty config keeps the invariant. -/
theorem config_operations_preserve_invariant_witness :
    (((parse_config_table (serialise_config
        { name := "q", deps := [{ name := "abc" }] }) "q").deps.map
          Dependency.name).Nodup)
    ∧ (((dependency_add ({} : Env) ({} : AppConfig) "bar").2.1.deps.map
          Dependency.name).Nodup) :=
  ⟨config_operations_preserve_invariant.2.1
      { name := "q", deps := [{ name := "abc" }] } "q" (by decide),
   (config_operations_preserve_invariant.2.2 ({} : Env) ({} : AppConfig) "bar"
      (by decide) (by decide) (by decide)).1⟩

/-! ## Claim C10 -/

/-- C10: every dependency surviving manifest loading has a name that is
neither empty nor the literal `"unknown"`: a row with a missing,
non-string, empty, or `"unknown"` name key is silently discarded, so a
dependency genuinely named `"unknown"` can never be declared. -/
theorem parse_discards_empty_and_unknown_names (tbl : TomlDoc) (fb : String) :
    (parse_config_table tbl fb).deps.all
      (fun d => d.name != "" && d.name != "unknown") = true := by
  rw [List.all_eq_true]
  intro d hd
  obtain ⟨v, hv⟩ := mem_parse_deps_field hd
  obtain ⟨h1, h2⟩ := parse_dep_row_some hv
  simp [Bool.and_eq_true, bne_iff_ne]
  exact ⟨h1, h2⟩
